import Mathlib

/-!
Verification of the heuristic code-quality scanner
(src/code-quality-hook/scripts/code_quality_check.py).

The scanner is a single pass over the lines of one file.  Four detectors
(`check_function_size`, `check_nesting_depth`, `check_file_size`,
`check_commented_blocks`) each map the line sequence to a list of violation
message strings, and `main` concatenates the four lists in a fixed order.

The embedding below translates each Python function into a Lean function on
`List String`.  The two regular expressions of the file are hand-translated
into character-list parsers; each translation step is justified in a comment
next to the definition.  Python's `\s` and `str.strip` whitespace is modelled
by its ASCII part, and `\w` by ASCII alphanumerics plus underscore.
-/

namespace CodeQuality

/-- ASCII whitespace, the common core of Python's regex `\s` and of
`str.strip` / `str.lstrip` / `str.rstrip`. -/
def isPySpace (c : Char) : Bool :=
  c = ' ' || c = '\t' || c = '\n' || c = '\r' || c = '\x0b' || c = '\x0c'

/-- ASCII model of Python's regex `\w`: letters, digits, underscore. -/
def isWordChar (c : Char) : Bool :=
  c.isAlphanum || c = '_'

/-- `MAX_FUNCTION_LINES` of the script. -/
def MAX_FUNCTION_LINES : Nat := 50

/-- `MAX_NESTING_DEPTH` of the script. -/
def MAX_NESTING_DEPTH : Nat := 4

/-- `MAX_FILE_LINES` of the script. -/
def MAX_FILE_LINES : Nat := 500

/-- `MAX_COMMENTED_BLOCK` of the script. -/
def MAX_COMMENTED_BLOCK : Nat := 10

/-- Match a literal character sequence at the head of `cs`; on success return
the remainder.  This is the meaning of a literal inside a Python regex. -/
def litAfter : List Char → List Char → Option (List Char)
  | [], cs => some cs
  | _ :: _, [] => none
  | p :: ps, c :: cs => if c = p then litAfter ps cs else none

/-- `s` is a literal prefix of `cs`. -/
def startsLit (s : String) (cs : List Char) : Bool :=
  (litAfter s.data cs).isSome

/-- The meaning of `kw\s+` at the head of `cs`: the keyword literally, then at
least one whitespace character; the remainder is taken after the maximal
whitespace run.  In the regexes below, `\s+`/`\s*` is always followed by a
requirement whose first character cannot be whitespace (a letter, `\w`, `=` or
`(`), so the backtracking search over how much whitespace the greedy `\s+`
keeps is equivalent to consuming the maximal run. -/
def kwGap (kw : String) (cs : List Char) : Option (List Char) :=
  match litAfter kw.data cs with
  | some (c :: rest) =>
      if isPySpace c then some (rest.dropWhile isPySpace) else none
  | _ => none

/-- The meaning of an optional group `(?:kw\s+)?` followed by a continuation
`k`: either the group matches and `k` holds of the remainder, or the group is
skipped (regex backtracking over the optional group). -/
def optGap (kw : String) (k : List Char → Bool) (cs : List Char) : Bool :=
  (match kwGap kw cs with
   | some r => k r
   | none => false)
  || k cs

/-- The meaning of `\w+\s*=` at the head of `cs` (the mandatory tail of the
regex's declaration alternative; the trailing `\s*(?:async\s*)?\(?` of that
alternative is entirely optional, so it never affects whether the line
matches). -/
def eqAfterName (cs : List Char) : Bool :=
  match cs with
  | c :: _ =>
      isWordChar c &&
        (match (cs.dropWhile isWordChar).dropWhile isPySpace with
         | '=' :: _ => true
         | _ => false)
  | [] => false

/-- The meaning of `\w+\s*\(` at the head of `cs` (the tail of the regex's
method-signature alternative). -/
def nameParen (cs : List Char) : Bool :=
  match cs with
  | c :: _ =>
      isWordChar c &&
        (match (cs.dropWhile isWordChar).dropWhile isPySpace with
         | '(' :: _ => true
         | _ => false)
  | [] => false

/-- The mandatory part of the regex alternative
`(?:const|let|var)\s+\w+\s*=\s*(?:async\s*)?\(?`. -/
def arrowBinding (cs : List Char) : Bool :=
  (match kwGap "const" cs with
   | some r => eqAfterName r
   | none => false)
  || (match kwGap "let" cs with
      | some r => eqAfterName r
      | none => false)
  || (match kwGap "var" cs with
      | some r => eqAfterName r
      | none => false)

/-- The regex alternative
`(?:export\s+)?(?:async\s+)?(?:function\s+)?(?:const|let|var)\s+\w+\s*=\s*(?:async\s*)?\(?`. -/
def declAlt (cs : List Char) : Bool :=
  optGap "export" (optGap "async" (optGap "function" arrowBinding)) cs

/-- The regex alternative
`(?:public|private|protected)\s+(?:static\s+)?(?:async\s+)?\w+\s*\(`. -/
def methodSig (cs : List Char) : Bool :=
  (match kwGap "public" cs with
   | some r => optGap "static" (optGap "async" nameParen) r
   | none => false)
  || (match kwGap "private" cs with
      | some r => optGap "static" (optGap "async" nameParen) r
      | none => false)
  || (match kwGap "protected" cs with
      | some r => optGap "static" (optGap "async" nameParen) r
      | none => false)

/-- The alternation body of `func_pattern` (code_quality_check.py lines 69-76),
in the regex's own order: `def `, `function `, `async function ` (the third
literal of the first source-string fragment carries its trailing space), the
declaration alternative, `func `, and the method-signature alternative. -/
def funcStartFrom (cs : List Char) : Bool :=
  startsLit "def " cs || startsLit "function " cs ||
    startsLit "async function " cs ||
    declAlt cs || startsLit "func " cs || methodSig cs

/-- `func_pattern.search(line)` as a Bool.  The pattern starts with `^\s*` and
`re.MULTILINE` is off, so the match is anchored at position 0; no alternative
of the alternation can begin with a whitespace character, so the greedy `\s*`
is equivalent to skipping the maximal leading-whitespace run. -/
def isFuncStart (line : String) : Bool :=
  funcStartFrom (line.data.dropWhile isPySpace)

/-- The capture of `kw\s+(\w+)` at the head of `cs`: the keyword, at least one
whitespace, then the maximal nonempty `\w+` run. -/
def nameCapture (kw : String) (cs : List Char) : Option (List Char) :=
  match kwGap kw cs with
  | some (c :: rest) =>
      if isWordChar c then some ((c :: rest).takeWhile isWordChar) else none
  | _ => none

/-- One position of the name regex
`(?:def|function|func|const|let|var)\s+(\w+)`: the alternatives are tried in
the regex's order. -/
def nameAt (cs : List Char) : Option (List Char) :=
  (nameCapture "def" cs).orElse fun _ =>
  (nameCapture "function" cs).orElse fun _ =>
  (nameCapture "func" cs).orElse fun _ =>
  (nameCapture "const" cs).orElse fun _ =>
  (nameCapture "let" cs).orElse fun _ =>
  nameCapture "var" cs

/-- `re.search` of the name regex: leftmost matching position wins. -/
def findName : List Char → Option (List Char)
  | [] => none
  | c :: cs =>
      match nameAt (c :: cs) with
      | some nm => some nm
      | none => findName cs

/-- Lines 90-91: extract a rough function name, `"anonymous"` when the name
regex finds no match in the line. -/
def extractName (line : String) : String :=
  match findName line.data with
  | some nm => String.mk nm
  | none => "anonymous"

/-- The violation message of `check_function_size` (lines 86 and 98). -/
def functionMsg (start : Nat) (name : String) (length : Nat) : String :=
  "  Line " ++ toString (start + 1) ++ ": function '" ++ name ++ "' is " ++
    toString length ++ " lines (max " ++ toString MAX_FUNCTION_LINES ++ ")"

/-- The loop of `check_function_size` (lines 80-99).  `i` is the index of the
head of the remaining lines, the `Option (Nat × String)` state is
(`func_start`, `func_name`); at the end of the list `i` has become
`len(lines)`, so the final-function check of lines 94-99 reuses it. -/
def sizeAux : List String → Nat → Option (Nat × String) → List String
  | [], n, st =>
      match st with
      | some (s, nm) =>
          if n - s > MAX_FUNCTION_LINES then [functionMsg s nm (n - s)] else []
      | none => []
  | l :: ls, i, st =>
      if isFuncStart l then
        (match st with
         | some (s, nm) =>
             if i - s > MAX_FUNCTION_LINES then [functionMsg s nm (i - s)] else []
         | none => []) ++ sizeAux ls (i + 1) (some (i, extractName l))
      else
        sizeAux ls (i + 1) st

/-- `check_function_size` (lines 66-101). -/
def check_function_size (lines : List String) : List String :=
  sizeAux lines 0 none

/-- The FunctionSpan of the spec's data model: a name, a start line index and
an exclusive end line index. -/
structure FunctionSpan where
  name : String
  startLine : Nat
  endLine : Nat
deriving Repr, DecidableEq

/-- The spans that the loop of `check_function_size` delimits: a span closes
at the next recognized start (exclusive) or at end of file. -/
def spansAux : List String → Nat → Option (Nat × String) → List FunctionSpan
  | [], n, st =>
      match st with
      | some (s, nm) => [⟨nm, s, n⟩]
      | none => []
  | l :: ls, i, st =>
      if isFuncStart l then
        (match st with
         | some (s, nm) => [⟨nm, s, i⟩]
         | none => []) ++ spansAux ls (i + 1) (some (i, extractName l))
      else
        spansAux ls (i + 1) st

/-- All function spans of a file. -/
def functionSpans (lines : List String) : List FunctionSpan :=
  spansAux lines 0 none

/-- The indices of the lines `func_pattern` recognizes as function starts. -/
def startIdxAux : List String → Nat → List Nat
  | [], _ => []
  | l :: ls, i =>
      if isFuncStart l then i :: startIdxAux ls (i + 1) else startIdxAux ls (i + 1)

/-- The recognized start-signature line indices of a file. -/
def startIdxs (lines : List String) : List Nat :=
  startIdxAux lines 0

/-- Modelled from the spec's words for C8: the list of (start, end) ranges in
which each start runs to the next start (exclusive), and the last start runs
to `n`, the end of the file. -/
def spanChain : List Nat → Nat → List (Nat × Nat)
  | [], _ => []
  | [s], n => [(s, n)]
  | s :: s' :: rest, n => (s, s') :: spanChain (s' :: rest) n

/-- Python `line.rstrip()`. -/
def pyRstrip (cs : List Char) : List Char :=
  (cs.reverse.dropWhile isPySpace).reverse

/-- Python `line.strip()`. -/
def pyStrip (cs : List Char) : List Char :=
  pyRstrip (cs.dropWhile isPySpace)

/-- Line 114: `leading = len(line) - len(line.lstrip())`, the number of
characters of the leading-whitespace run. -/
def leadingCount (cs : List Char) : Nat :=
  cs.length - (cs.dropWhile isPySpace).length

/-- The slice `line[:leading]` of lines 116-117. -/
def leadRun (cs : List Char) : List Char :=
  cs.take (leadingCount cs)

/-- The depth heuristic of lines 114-120: the number of tabs of the
leading-whitespace run when it has one, otherwise the length of that run
integer-divided by 4. -/
def lineDepth (line : String) : Nat :=
  let lead := leadRun line.data
  if lead.contains '\t' then lead.count '\t' else leadingCount line.data / 4

/-- The violation message of `check_nesting_depth` (line 128). -/
def nestingMsg (i depth : Nat) : String :=
  "  Line " ++ toString (i + 1) ++ ": nesting depth " ++ toString depth ++
    " (max " ++ toString MAX_NESTING_DEPTH ++ ")"

/-- The loop of `check_nesting_depth` (lines 109-129), with each emitted
message paired with the index of the line it cites.  Python's
`reported_regions` set is used only through membership and insertion, so a
`List Nat` carries it. -/
def nestAux : List String → Nat → List Nat → List (Nat × String)
  | [], _, _ => []
  | l :: ls, i, regions =>
      if (pyRstrip l.data).isEmpty then
        nestAux ls (i + 1) regions
      else
        if lineDepth l > MAX_NESTING_DEPTH then
          if regions.contains (i / 10) then
            nestAux ls (i + 1) regions
          else
            (i, nestingMsg i (lineDepth l)) :: nestAux ls (i + 1) (i / 10 :: regions)
        else
          nestAux ls (i + 1) regions

/-- The nesting violations with the line index each one cites. -/
def nestingHits (lines : List String) : List (Nat × String) :=
  nestAux lines 0 []

/-- `check_nesting_depth` (lines 104-131): the messages of `nestingHits`. -/
def check_nesting_depth (lines : List String) : List String :=
  (nestingHits lines).map Prod.snd

/-- The violation message of `check_file_size` (line 137). -/
def fileMsg (n : Nat) : String :=
  "  File is " ++ toString n ++ " lines (max " ++ toString MAX_FILE_LINES ++ ")"

/-- `check_file_size` (lines 134-138). -/
def check_file_size (lines : List String) : List String :=
  if lines.length > MAX_FILE_LINES then [fileMsg lines.length] else []

/-- The comment markers of `comment_pattern` (line 147): `//`, `#`, `--`,
`/*`, `*`. -/
def commentMarkers : List String :=
  ["//", "#", "--", "/*", "*"]

/-- `comment_pattern.match(s)` for the pattern `^\s*(//|#|--|/\*|\*)`: an
anchored match, a greedy `\s*`, then one of the markers; no marker begins
with whitespace, so the `\s*` is equivalent to skipping the maximal
leading-whitespace run. -/
def isCommentLine (s : List Char) : Bool :=
  commentMarkers.any fun m => m.data.isPrefixOf (s.dropWhile isPySpace)

/-- The alternatives of `code_keywords` (lines 144-146); `re.search` with a
literal alternation is substring containment of one of them.  The braces are
the characters `{` and `}`. -/
def codeSignals : List String :=
  ["function", "class", "if", "for", "while", "return", "import",
    "const", "let", "var", "def ", ";", "\x7b", "\x7d", "(", ")"]

/-- `re.search` of a literal: scan the starting positions left to right and
test the literal at each one. -/
def containsLit (pat : List Char) : List Char → Bool
  | [] => (litAfter pat []).isSome
  | c :: cs => (litAfter pat (c :: cs)).isSome || containsLit pat cs

/-- `code_keywords.search(s)` as a Bool. -/
def hasCodeSignal (s : List Char) : Bool :=
  codeSignals.any fun k => containsLit k.data s

/-- Line 153-154 applied to one line: the stripped line is comment-classified
and carries a code signal. -/
def isStaleLine (line : String) : Bool :=
  isCommentLine (pyStrip line.data) && hasCodeSignal (pyStrip line.data)

/-- The violation message of `check_commented_blocks` (lines 161 and 169). -/
def staleMsg (runStart runLength : Nat) : String :=
  "  Lines " ++ toString (runStart + 1) ++ "-" ++
    toString (runStart + runLength) ++ ": " ++ toString runLength ++
    " lines of commented-out code"

/-- The loop of `check_commented_blocks` (lines 152-170).  The state mirrors
the Python variables `run_start : Option Nat` and `run_length : Nat`;
`rs.getD i` is `run_start if run_start is not None else i` (line 155-156), and
in the emitting branches `run_length >= MAX_COMMENTED_BLOCK` forces
`run_start` to be `some`, so `rs.getD 0` reads the value Python reads. -/
def blockAux : List String → Nat → Option Nat → Nat → List String
  | [], _, rs, rl =>
      if rl ≥ MAX_COMMENTED_BLOCK then [staleMsg (rs.getD 0) rl] else []
  | l :: ls, i, rs, rl =>
      if isStaleLine l then
        blockAux ls (i + 1) (some (rs.getD i)) (rl + 1)
      else
        (if rl ≥ MAX_COMMENTED_BLOCK then [staleMsg (rs.getD 0) rl] else []) ++
          blockAux ls (i + 1) none 0


/-- `check_commented_blocks` (lines 141-172). -/
def check_commented_blocks (lines : List String) : List String :=
  blockAux lines 0 none 0

/-- The runs the loop of `check_commented_blocks` delimits: (start index,
length) of each maximal run of stale lines, in scan order. -/
def runsAux : List String → Nat → Option (Nat × Nat) → List (Nat × Nat)
  | [], _, st =>
      match st with
      | some r => [r]
      | none => []
  | l :: ls, i, st =>
      if isStaleLine l then
        match st with
        | some (s, k) => runsAux ls (i + 1) (some (s, k + 1))
        | none => runsAux ls (i + 1) (some (i, 1))
      else
        (match st with
         | some r => [r]
         | none => []) ++ runsAux ls (i + 1) none

/-- The stale-comment runs of a file. -/
def staleRuns (lines : List String) : List (Nat × Nat) :=
  runsAux lines 0 none

/-- Modelled from the spec's words for C4: the maximal runs of `true` in a
Boolean line classification, as (start index, length): a run starts at a
`true` whose predecessor is absent or `false`, extends over consecutive
`true`s, and breaks at the first `false` or at the end. -/
def trueRunsAux : List Bool → Nat → List (Nat × Nat)
  | [], _ => []
  | b :: bs, i =>
      if b then
        (i, 1 + (bs.takeWhile (fun x => x)).length) ::
          trueRunsAux (bs.dropWhile (fun x => x))
            (i + 1 + (bs.takeWhile (fun x => x)).length)
      else
        trueRunsAux bs (i + 1)
termination_by l _ => l.length
decreasing_by
  · exact Nat.lt_succ_of_le (List.dropWhile_sublist _).length_le
  · exact Nat.lt_succ_self _

/-- The maximal `true`-runs of a Boolean list. -/
def trueRuns (bs : List Bool) : List (Nat × Nat) :=
  trueRunsAux bs 0

/-- The aggregation of `main` (lines 203-207): a `violations` list extended by
the four detectors in order. -/
def scanReport (lines : List String) : List String :=
  let violations : List String := []
  let violations := violations ++ check_function_size lines
  let violations := violations ++ check_nesting_depth lines
  let violations := violations ++ check_file_size lines
  let violations := violations ++ check_commented_blocks lines
  violations

/-- Line 209: `if violations:` — the has-violations flag of the report. -/
def hasViolations (lines : List String) : Bool :=
  !(scanReport lines).isEmpty

/-- The control flow of `main`'s aggregation (lines 203-207) when each
detector call is modelled as fallible: each `violations.extend(check_*(lines))`
evaluates its argument, and an exception raised there propagates out of
`main` — the script installs no handler around these calls — so the remaining
detectors never run and no report is produced.  A raised exception is
`Except.error` with its message. -/
def runDetectors (r1 r2 r3 r4 : Except String (List String)) :
    Except String (List String) := do
  let v1 ← r1
  let v2 ← r2
  let v3 ← r3
  let v4 ← r4
  return ((([] ++ v1) ++ v2) ++ v3) ++ v4

/-- The depth formula exactly as claim C6 words it: the count of tab
characters of the leading-whitespace run when that run contains a tab,
otherwise the count of leading space characters integer-divided by 4. -/
def claimDepth (line : String) : Nat :=
  let lead := line.data.takeWhile isPySpace
  if lead.contains '\t' then lead.count '\t' else lead.count ' ' / 4

/-- The depth formula of the amended claim C6: the count of tab characters of
the leading-whitespace run when that run contains a tab, otherwise the length
of the whole leading-whitespace run integer-divided by 4. -/
def specDepth (line : String) : Nat :=
  let lead := line.data.takeWhile isPySpace
  if lead.contains '\t' then lead.count '\t' else lead.length / 4

/-- The tail claim C2 ascribes to the arrow binding after `NAME =`: an
optional `async`, then a required opening parenthesis. -/
def claimArrowTail (r : List Char) : Bool :=
  (match litAfter ("async".data) r with
   | some r2 =>
       match r2.dropWhile isPySpace with
       | '(' :: _ => true
       | _ => false
   | none => false)
  || (match r with
      | '(' :: _ => true
      | _ => false)

/-- The arrow-binding family exactly as claim C2 words it:
`const|let|var NAME = (async)? (`. -/
def claimArrowCore (r : List Char) : Bool :=
  match r with
  | c :: _ =>
      isWordChar c &&
        (match (r.dropWhile isWordChar).dropWhile isPySpace with
         | '=' :: rest => claimArrowTail (rest.dropWhile isPySpace)
         | _ => false)
  | [] => false

/-- The signature family exactly as claim C2 words it: leading keyword
`def `/`function `/`async function`; an arrow binding
`const|let|var NAME = (async)? (`; a bare `func ` declaration; or a
visibility-qualified method signature
`public|private|protected (static)? (async)? NAME(`. -/
def claimFuncStart (line : String) : Bool :=
  let cs := line.data.dropWhile isPySpace
  startsLit "def " cs || startsLit "function " cs ||
    startsLit "async function" cs ||
    ((match kwGap "const" cs with
      | some r => claimArrowCore r
      | none => false)
     || (match kwGap "let" cs with
         | some r => claimArrowCore r
         | none => false)
     || (match kwGap "var" cs with
         | some r => claimArrowCore r
         | none => false))
    || startsLit "func " cs || methodSig cs

/-- A chain of optional keyword groups `(?:kw\s+)?` before a continuation. -/
def optChain : List String → (List Char → Bool) → List Char → Bool
  | [], k, cs => k cs
  | kw :: kws, k, cs =>
      (match kwGap kw cs with
       | some r => optChain kws k r
       | none => false)
      || optChain kws k cs

/-- The signature family of the amended claim C2, written from its words: a
leading keyword `def `/`function `/`async function ` (with its following
space) or `func `; an arrow/lambda-style binding `const|let|var NAME =`,
optionally preceded by `export`/`async`/`function` keywords (the trailing
`async` and `(` of the idiom are optional, so they impose nothing); or a
visibility-qualified method signature
`public|private|protected (static)? (async)? NAME(`. -/
def specFuncStart (line : String) : Bool :=
  let cs := line.data.dropWhile isPySpace
  (["def ", "function ", "async function ", "func "].any fun kw =>
      kw.data.isPrefixOf cs)
    || optChain ["export", "async", "function"]
        (fun r =>
          ["const", "let", "var"].any fun kw =>
            match kwGap kw r with
            | some r2 => eqAfterName r2
            | none => false)
        cs
    || (["public", "private", "protected"].any fun kw =>
        match kwGap kw cs with
        | some r => optChain ["static", "async"] nameParen r
        | none => false)

/-- The start index a state contributes to the chain of spans. -/
def stStarts : Option (Nat × String) → List Nat
  | some (s, _) => [s]
  | none => []

/-- The run length a comment-run state carries. -/
def rlOf : Option (Nat × Nat) → Nat
  | some (_, k) => k
  | none => 0

/-- C3's scenario input: a single `def `-started function spanning 60 lines. -/
def sixtyLineFile : List String :=
  "def foo():" :: List.replicate 59 "    pass"

/-- C4's scenario input: 12 code-shaped comment lines, then one prose comment
line. -/
def staleScenario : List String :=
  List.replicate 12 "# import foo" ++ ["# hello world"]

/-- C6's scenario input: one line indented with 5 tabs. -/
def tabFile : List String :=
  ["\t\t\t\t\tcode"]

/-- C6's scenario input: one line indented with 16 spaces and none deeper. -/
def spaceFile : List String :=
  ["                x"]

/-- C7's scenario input: ten consecutive lines, every one 5 tabs deep, all in
the first 10-line bucket. -/
def deepTabFile : List String :=
  List.replicate 10 "\t\t\t\t\tx"

/-- C6's counterexample line: indented by four vertical tabs (U+000B), a
whitespace character that is neither a tab nor a space. -/
def vtLine : String :=
  "\x0b\x0b\x0b\x0bx"

/-! ## Theorems -/

/-- C10: on the empty line sequence every detector returns the empty list, the
aggregated report is empty and the has-violations flag is false. -/
theorem claim_C10 :
    check_function_size [] = [] ∧ check_nesting_depth [] = [] ∧
    check_file_size [] = [] ∧ check_commented_blocks [] = [] ∧
    scanReport [] = [] ∧ hasViolations [] = false :=
  ⟨rfl, rfl, rfl, rfl, rfl, rfl⟩

/-- C9: the aggregated report is the concatenation, in the fixed order
function size, nesting, file size, comment runs, of the four detectors'
violation lists, with no other processing, and the has-violations flag is
true exactly when that concatenation is nonempty. -/
theorem claim_C9 :
    ∀ lines : List String,
      scanReport lines =
        check_function_size lines ++ check_nesting_depth lines ++
          check_file_size lines ++ check_commented_blocks lines ∧
      (hasViolations lines = true ↔ scanReport lines ≠ []) := by
  intro lines
  constructor
  · simp [scanReport, List.append_assoc]
  · simp [hasViolations]

/-- C1 (counterexample): `main` sequences the four detector calls with no
exception handling, so when the first detector raises, the scan aborts with
the exception and the second detector's violation is in no report, contrary
to the claimed fault isolation. -/
theorem claim_C1_counterexample :
    runDetectors (Except.error "boom")
        (Except.ok ["  Line 1: nesting depth 5 (max 4)"])
        (Except.ok []) (Except.ok []) =
      Except.error "boom" :=
  rfl

/-- C1 (amended): detector calls are not fault-isolated — any detector
failure aborts the whole aggregation and yields no report — but when every
detector returns normally, which the four embedded total detectors do on
every input, the aggregation returns the full concatenated report. -/
theorem claim_C1 :
    (∀ lines : List String,
        runDetectors (Except.ok (check_function_size lines))
            (Except.ok (check_nesting_depth lines))
            (Except.ok (check_file_size lines))
            (Except.ok (check_commented_blocks lines)) =
          Except.ok (scanReport lines)) ∧
    (∀ (e : String) (r2 r3 r4 : Except String (List String)),
        runDetectors (Except.error e) r2 r3 r4 = Except.error e) :=
  ⟨fun _ => rfl, fun _ _ _ _ => rfl⟩

set_option maxRecDepth 4000 in
/-- C5: a FileTooLong violation carrying the total line count is emitted iff
the count strictly exceeds `MAX_FILE_LINES`; a file of exactly
`MAX_FILE_LINES` lines yields none, and a 501-line file yields exactly one
violation reporting 501. -/
theorem claim_C5 :
    (∀ lines : List String,
        (check_file_size lines ≠ [] ↔ MAX_FILE_LINES < lines.length) ∧
        (MAX_FILE_LINES < lines.length →
          check_file_size lines = [fileMsg lines.length]) ∧
        (lines.length = MAX_FILE_LINES → check_file_size lines = [])) ∧
    check_file_size (List.replicate 501 "") =
      ["  File is 501 lines (max 500)"] := by
  constructor
  · intro lines
    refine ⟨?_, ?_, ?_⟩
    · by_cases h : MAX_FILE_LINES < lines.length
      · simp [check_file_size, h]
      · simp [check_file_size, h]
    · intro h
      simp [check_file_size, h]
    · intro h
      simp [check_file_size, h, MAX_FILE_LINES]
  · decide

/-- The loop of `check_function_size` emits exactly the messages of the spans
whose length strictly exceeds the threshold, in span order. -/
theorem sizeAux_eq_spans (ls : List String) :
    ∀ (i : Nat) (st : Option (Nat × String)),
      sizeAux ls i st =
        ((spansAux ls i st).filter
            (fun sp => sp.endLine - sp.startLine > MAX_FUNCTION_LINES)).map
          (fun sp => functionMsg sp.startLine sp.name (sp.endLine - sp.startLine)) := by
  induction ls with
  | nil =>
      intro i st
      match st with
      | none => simp [sizeAux, spansAux]
      | some (s, nm) =>
          by_cases h : i - s > MAX_FUNCTION_LINES
          · simp [sizeAux, spansAux, h]
          · simp [sizeAux, spansAux, h]
  | cons l ls ih =>
      intro i st
      by_cases hf : isFuncStart l
      · match st with
        | none =>
            simp [sizeAux, spansAux, hf, ih]
        | some (s, nm) =>
            by_cases h : i - s > MAX_FUNCTION_LINES
            · simp [sizeAux, spansAux, hf, h, ih]
            · simp [sizeAux, spansAux, hf, h, ih]
      · simp [sizeAux, spansAux, hf, ih]

/-- The loop of `check_commented_blocks` emits exactly the messages of the
runs whose length reaches the threshold, in scan order.  The `(rs, rl)` pair
of the loop corresponds to the run state `st`. -/
theorem blockAux_eq_runs (ls : List String) :
    ∀ (i : Nat) (st : Option (Nat × Nat)),
      blockAux ls i (Option.map Prod.fst st) (rlOf st) =
        ((runsAux ls i st).filter (fun r => r.2 ≥ MAX_COMMENTED_BLOCK)).map
          (fun r => staleMsg r.1 r.2) := by
  induction ls with
  | nil =>
      intro i st
      match st with
      | none => simp [blockAux, runsAux, rlOf, MAX_COMMENTED_BLOCK]
      | some (s, k) =>
          by_cases h : k ≥ MAX_COMMENTED_BLOCK
          · simp [blockAux, runsAux, rlOf, h]
          · simp [blockAux, runsAux, rlOf, h]
  | cons l ls ih =>
      intro i st
      by_cases hs : isStaleLine l
      · match st with
        | none => simpa [blockAux, runsAux, rlOf, hs] using ih (i + 1) (some (i, 1))
        | some (s, k) =>
            simpa [blockAux, runsAux, rlOf, hs] using ih (i + 1) (some (s, k + 1))
      · match st with
        | none => simpa [blockAux, runsAux, rlOf, hs] using ih (i + 1) none
        | some (s, k) =>
            by_cases h : k ≥ MAX_COMMENTED_BLOCK
            · simpa [blockAux, runsAux, rlOf, hs, h] using ih (i + 1) none
            · simpa [blockAux, runsAux, rlOf, hs, h] using ih (i + 1) none

/-- The run loop of `check_commented_blocks` finds exactly the maximal runs of
stale lines: with no open run it produces the maximal `true`-runs of the rest,
and with an open run it first closes that run at the end of the current
`true`-block. -/
theorem runsAux_eq_trueRuns (ls : List String) :
    (∀ i : Nat, runsAux ls i none = trueRunsAux (ls.map isStaleLine) i) ∧
    (∀ i s k : Nat,
      runsAux ls i (some (s, k)) =
        (s, k + ((ls.map isStaleLine).takeWhile (fun x => x)).length) ::
          trueRunsAux ((ls.map isStaleLine).dropWhile (fun x => x))
            (i + ((ls.map isStaleLine).takeWhile (fun x => x)).length)) := by
  induction ls with
  | nil =>
      constructor
      · intro i
        simp [runsAux, trueRunsAux]
      · intro i s k
        simp [runsAux, trueRunsAux]
  | cons l ls ih =>
      obtain ⟨ih1, ih2⟩ := ih
      constructor
      · intro i
        by_cases hs : isStaleLine l
        · simp only [runsAux, hs, if_true, List.map_cons]
          rw [ih2]
          simp [trueRunsAux, hs]
        · simp only [runsAux, hs, if_false, List.map_cons]
          rw [ih1]
          simp [trueRunsAux, hs]
      · intro i s k
        by_cases hs : isStaleLine l
        · simp only [runsAux, hs, if_true, List.map_cons]
          rw [ih2]
          simp [hs, List.takeWhile_cons, List.dropWhile_cons, Nat.add_assoc,
            Nat.add_comm, Nat.add_left_comm]
        · simp only [runsAux, hs, if_false, List.map_cons, List.cons_append,
            List.nil_append]
          rw [ih1]
          simp [trueRunsAux, hs, List.takeWhile_cons, List.dropWhile_cons]

set_option maxRecDepth 8000 in
/-- C3: a FunctionTooLong violation is emitted for a span exactly when the
span's length strictly exceeds `MAX_FUNCTION_LINES`, and it cites the span's
start line, name and length; the 60-line single-`def` file yields exactly one
violation citing line 1 and a 60-line length. -/
theorem claim_C3 :
    (∀ lines : List String,
        check_function_size lines =
          ((functionSpans lines).filter
              (fun sp => sp.endLine - sp.startLine > MAX_FUNCTION_LINES)).map
            (fun sp => functionMsg sp.startLine sp.name
              (sp.endLine - sp.startLine))) ∧
    functionSpans sixtyLineFile = [⟨"foo", 0, 60⟩] ∧
    check_function_size sixtyLineFile =
      ["  Line 1: function 'foo' is 60 lines (max 50)"] := by
  refine ⟨fun lines => sizeAux_eq_spans lines 0 none, ?_, ?_⟩
  · decide
  · decide

set_option maxRecDepth 2000 in
/-- C4: a stale-comment run extends over consecutive lines that are both
comment-classified and carry a code signal, breaks at the first line failing
either condition, and a StaleCommentBlock violation spanning the run is
emitted exactly when the ended run (end-of-file included) has length at least
`MAX_COMMENTED_BLOCK`; 12 code-shaped comment lines followed by a prose
comment line yield one violation of length 12 ended by the 13th line. -/
theorem claim_C4 :
    (∀ lines : List String,
        check_commented_blocks lines =
          ((staleRuns lines).filter (fun r => r.2 ≥ MAX_COMMENTED_BLOCK)).map
            (fun r => staleMsg r.1 r.2) ∧
        staleRuns lines = trueRuns (lines.map isStaleLine)) ∧
    staleRuns staleScenario = [(0, 12)] ∧
    check_commented_blocks staleScenario =
      ["  Lines 1-12: 12 lines of commented-out code"] := by
  refine ⟨fun lines => ⟨blockAux_eq_runs lines 0 none, (runsAux_eq_trueRuns lines).1 0⟩,
    ?_, ?_⟩
  · decide
  · decide

/-- Taking as many elements as the `takeWhile` prefix is long recovers that
prefix. -/
theorem take_takeWhile_length {α : Type} (p : α → Bool) :
    ∀ l : List α, l.take (l.takeWhile p).length = l.takeWhile p := by
  intro l
  induction l with
  | nil => rfl
  | cons a l ih =>
      by_cases h : p a
      · simp [List.takeWhile_cons, h, ih]
      · simp [List.takeWhile_cons, h]

/-- Line 114's `len(line) - len(line.lstrip())` is the length of the
leading-whitespace run. -/
theorem leadingCount_eq (cs : List Char) :
    leadingCount cs = (cs.takeWhile isPySpace).length := by
  have hlen : cs.length =
      (cs.takeWhile isPySpace).length + (cs.dropWhile isPySpace).length := by
    conv_lhs => rw [← List.takeWhile_append_dropWhile (p := isPySpace) (l := cs)]
    exact List.length_append _ _
  unfold leadingCount
  omega

/-- The slice `line[:leading]` is the leading-whitespace run itself. -/
theorem leadRun_eq (cs : List Char) :
    leadRun cs = cs.takeWhile isPySpace := by
  unfold leadRun
  rw [leadingCount_eq]
  exact take_takeWhile_length isPySpace cs

/-- C6 (counterexample): a non-blank line indented by four vertical-tab
characters has estimated depth 1, while the claim's formula — the count of
leading space characters divided by 4 — gives 0. -/
theorem claim_C6_counterexample :
    lineDepth vtLine = 1 ∧ claimDepth vtLine = 0 ∧
    (pyRstrip vtLine.data).isEmpty = false := by
  decide

/-- C6 (amended): for every line the estimated depth is the count of tab
characters of the leading-whitespace run when that run contains a tab, and
otherwise the length of the whole leading-whitespace run divided by 4; a
5-tab-deep line yields a NestingTooDeep violation, and a 16-space-deep file
yields none. -/
theorem claim_C6 :
    (∀ line : String, lineDepth line = specDepth line) ∧
    check_nesting_depth tabFile = ["  Line 1: nesting depth 5 (max 4)"] ∧
    check_nesting_depth spaceFile = [] := by
  refine ⟨?_, by decide, by decide⟩
  intro line
  unfold lineDepth specDepth
  rw [leadRun_eq, leadingCount_eq]

/-- The nesting loop never cites a line whose 10-line bucket is already in
`reported_regions`, and the hits it produces cite pairwise distinct
buckets. -/
theorem nestAux_regions (ls : List String) :
    ∀ (i : Nat) (regions : List Nat),
      (∀ hit ∈ nestAux ls i regions, hit.1 / 10 ∉ regions) ∧
      List.Pairwise (fun a b => a.1 / 10 ≠ b.1 / 10) (nestAux ls i regions) := by
  induction ls with
  | nil =>
      intro i regions
      simp [nestAux]
  | cons l ls ih =>
      intro i regions
      by_cases hb : (pyRstrip l.data).isEmpty
      · simpa [nestAux, hb] using ih (i + 1) regions
      · by_cases hd : lineDepth l > MAX_NESTING_DEPTH
        · by_cases hr : i / 10 ∈ regions
          · simpa [nestAux, hb, hd, hr] using ih (i + 1) regions
          · have hmem : i / 10 ∉ regions := hr
            obtain ⟨ih1, ih2⟩ := ih (i + 1) (i / 10 :: regions)
            have hrw : nestAux (l :: ls) i regions =
                (i, nestingMsg i (lineDepth l)) ::
                  nestAux ls (i + 1) (i / 10 :: regions) := by
              simp [nestAux, hb, hd, hr]
            rw [hrw]
            constructor
            · intro hit hhit
              rcases List.mem_cons.mp hhit with h | h
              · subst h
                exact hmem
              · intro hc
                exact ih1 hit h (List.mem_cons_of_mem _ hc)
            · refine List.Pairwise.cons ?_ ih2
              intro b hbmem
              have hnot := ih1 b hbmem
              intro hc
              exact hnot (hc ▸ List.mem_cons_self _ _)
        · simpa [nestAux, hb, hd] using ih (i + 1) regions

/-- C7: the nesting detector reports at most one violation per 10-line
bucket — no two nesting hits of one scan cite lines with the same
`line_index / 10` — and ten consecutive over-deep lines in one bucket yield
exactly one violation. -/
theorem claim_C7 :
    (∀ lines : List String,
        List.Pairwise (fun a b => a.1 / 10 ≠ b.1 / 10) (nestingHits lines) ∧
        check_nesting_depth lines = (nestingHits lines).map Prod.snd) ∧
    check_nesting_depth deepTabFile = ["  Line 1: nesting depth 5 (max 4)"] := by
  exact ⟨fun lines => ⟨(nestAux_regions lines 0 []).2, rfl⟩, by decide⟩

/-- The spans the function-size loop produces project to the chain of the
recognized start indices, closed at the end of file. -/
theorem spansAux_chain (ls : List String) :
    ∀ (i : Nat) (st : Option (Nat × String)),
      (spansAux ls i st).map (fun sp => (sp.startLine, sp.endLine)) =
        spanChain (stStarts st ++ startIdxAux ls i) (i + ls.length) := by
  induction ls with
  | nil =>
      intro i st
      match st with
      | none => simp [spansAux, startIdxAux, stStarts, spanChain]
      | some (s, nm) => simp [spansAux, startIdxAux, stStarts, spanChain]
  | cons l ls ih =>
      intro i st
      have harith : i + (l :: ls).length = (i + 1) + ls.length := by
        simp only [List.length_cons]
        omega
      rw [harith]
      by_cases hf : isFuncStart l
      · match st with
        | none =>
            have h2 := ih (i + 1) (some (i, extractName l))
            simp only [stStarts, List.singleton_append] at h2
            simp [spansAux, startIdxAux, stStarts, hf, h2]
        | some (s, nm) =>
            have h2 := ih (i + 1) (some (i, extractName l))
            simp only [stStarts, List.singleton_append] at h2
            simp [spansAux, startIdxAux, stStarts, hf, h2, spanChain]
      · match st with
        | none =>
            have h2 := ih (i + 1) none
            simp only [stStarts, List.nil_append] at h2
            simp [spansAux, startIdxAux, stStarts, hf, h2]
        | some (s, nm) =>
            have h2 := ih (i + 1) (some (s, nm))
            simp only [stStarts, List.singleton_append] at h2
            simp [spansAux, startIdxAux, stStarts, hf, h2]

/-- A chain has one span per start. -/
theorem spanChain_length :
    ∀ (l : List Nat) (n : Nat), (spanChain l n).length = l.length := by
  intro l
  induction l with
  | nil => intro n; rfl
  | cons s rest ih =>
      intro n
      match rest with
      | [] => rfl
      | s' :: rest' => simpa [spanChain] using ih n

/-- Every span of a chain starts at one of the chained indices. -/
theorem spanChain_mem_fst :
    ∀ (l : List Nat) (n : Nat) (p : Nat × Nat), p ∈ spanChain l n → p.1 ∈ l := by
  intro l
  induction l with
  | nil =>
      intro n p hp
      simp [spanChain] at hp
  | cons s rest ih =>
      intro n p hp
      match rest with
      | [] =>
          simp [spanChain] at hp
          simp [hp]
      | s' :: rest' =>
          rcases List.mem_cons.mp hp with h | h
          · simp [h]
          · exact List.mem_cons_of_mem _ (ih n p h)

/-- The chain of a strictly sorted list bounded by `n` is a list of
non-overlapping, nonempty spans. -/
theorem spanChain_pairwise :
    ∀ (l : List Nat) (n : Nat), List.Pairwise (· < ·) l → (∀ x ∈ l, x < n) →
      List.Pairwise (fun a b : Nat × Nat => a.2 ≤ b.1) (spanChain l n) ∧
      ∀ p ∈ spanChain l n, p.1 < p.2 := by
  intro l
  induction l with
  | nil =>
      intro n _ _
      simp [spanChain]
  | cons s rest ih =>
      intro n hsort hbound
      match rest with
      | [] =>
          constructor
          · simp [spanChain]
          · intro p hp
            simp [spanChain] at hp
            simp [hp]
            exact hbound s (List.mem_cons_self _ _)
      | s' :: rest' =>
          have hsort' : List.Pairwise (· < ·) (s' :: rest') :=
            (List.pairwise_cons.mp hsort).2
          have hbound' : ∀ x ∈ s' :: rest', x < n := fun x hx =>
            hbound x (List.mem_cons_of_mem _ hx)
          obtain ⟨ihp, ihlt⟩ := ih n hsort' hbound'
          constructor
          · refine List.Pairwise.cons ?_ ihp
            intro b hbmem
            have hb1 : b.1 ∈ s' :: rest' := spanChain_mem_fst _ n b hbmem
            rcases List.mem_cons.mp hb1 with h | h
            · exact le_of_eq h.symm
            · exact le_of_lt ((List.pairwise_cons.mp hsort').1 b.1 h)
          · intro p hp
            rcases List.mem_cons.mp hp with h | h
            · subst h
              exact (List.pairwise_cons.mp hsort).1 s' (List.mem_cons_self _ _)
            · exact ihlt p h

/-- The recognized start indices are in-range and strictly increasing. -/
theorem startIdxAux_sorted (ls : List String) :
    ∀ i : Nat,
      (∀ x ∈ startIdxAux ls i, i ≤ x ∧ x < i + ls.length) ∧
      List.Pairwise (· < ·) (startIdxAux ls i) := by
  induction ls with
  | nil =>
      intro i
      simp [startIdxAux]
  | cons l ls ih =>
      intro i
      obtain ⟨ih1, ih2⟩ := ih (i + 1)
      by_cases hf : isFuncStart l
      · constructor
        · intro x hx
          simp only [startIdxAux, hf, if_true] at hx
          simp only [List.length_cons]
          rcases List.mem_cons.mp hx with h | h
          · subst h
            omega
          · have := ih1 x h
            omega
        · simp only [startIdxAux, hf, if_true]
          refine List.Pairwise.cons ?_ ih2
          intro x hx
          have := ih1 x hx
          omega
      · constructor
        · intro x hx
          simp only [startIdxAux, hf, if_false] at hx
          have := ih1 x hx
          simp only [List.length_cons]
          omega
        · simpa [startIdxAux, hf] using ih2

/-- C8: the number of FunctionSpans equals the number of recognized
start-signature lines, each span runs from its start to the next start
(exclusive) or to end of file, and the spans are pairwise non-overlapping and
nonempty. -/
theorem claim_C8 :
    ∀ lines : List String,
      (functionSpans lines).length = (startIdxs lines).length ∧
      (functionSpans lines).map (fun sp => (sp.startLine, sp.endLine)) =
        spanChain (startIdxs lines) lines.length ∧
      List.Pairwise (fun a b => a.endLine ≤ b.startLine) (functionSpans lines) ∧
      ∀ sp ∈ functionSpans lines, sp.startLine < sp.endLine := by
  intro lines
  have hchain : (functionSpans lines).map (fun sp => (sp.startLine, sp.endLine)) =
      spanChain (startIdxs lines) lines.length := by
    have := spansAux_chain lines 0 none
    simpa [functionSpans, startIdxs, stStarts] using this
  have hs := startIdxAux_sorted lines 0
  have hbound : ∀ x ∈ startIdxs lines, x < lines.length := by
    intro x hx
    have := hs.1 x hx
    omega
  obtain ⟨hp, hlt⟩ :=
    spanChain_pairwise (startIdxs lines) lines.length hs.2 hbound
  refine ⟨?_, hchain, ?_, ?_⟩
  · have := congrArg List.length hchain
    simpa [spanChain_length] using this
  · rw [← hchain] at hp
    exact List.pairwise_map.mp hp
  · intro sp hsp
    have hmem : (sp.startLine, sp.endLine) ∈ spanChain (startIdxs lines) lines.length := by
      rw [← hchain]
      exact List.mem_map_of_mem _ hsp
    exact hlt _ hmem

/-- The literal matcher succeeds exactly on prefixes. -/
theorem litAfter_isSome :
    ∀ ps cs : List Char, (litAfter ps cs).isSome = ps.isPrefixOf cs := by
  intro ps
  induction ps with
  | nil =>
      intro cs
      simp [litAfter, List.isPrefixOf]
  | cons p ps ih =>
      intro cs
      match cs with
      | [] => simp [litAfter, List.isPrefixOf]
      | c :: cs =>
          by_cases h : c = p
          · simp [litAfter, List.isPrefixOf, h, ih]
          · have h' : ¬(p == c) = true := by
              simp [beq_iff_eq]
              exact fun hc => h hc.symm
            simp [litAfter, List.isPrefixOf, h, h']

/-- `startsLit` is `List.isPrefixOf`. -/
theorem startsLit_eq (s : String) (cs : List Char) :
    startsLit s cs = s.data.isPrefixOf cs :=
  litAfter_isSome s.data cs

/-- A chain of optional keyword groups only looks at its continuation's
values. -/
theorem optChain_congr :
    ∀ (l : List String) (k k' : List Char → Bool), (∀ r, k r = k' r) →
      ∀ cs, optChain l k cs = optChain l k' cs := by
  intro l
  induction l with
  | nil =>
      intro k k' h cs
      exact h cs
  | cons kw kws ih =>
      intro k k' h cs
      unfold optChain
      cases hkw : kwGap kw cs with
      | none => simp [ih k k' h cs]
      | some r => simp [ih k k' h r, ih k k' h cs]

/-- C2 (counterexample): the plain assignment `const x = 5` — no arrow, no
parenthesis, no function on the line — is recognized by `func_pattern` as a
function start, because the regex's trailing `\(?` makes the parenthesis of
the arrow-binding idiom optional; the claim's signature family, which demands
the parenthesis, rejects it. -/
theorem claim_C2_counterexample :
    isFuncStart "const x = 5" = true ∧ claimFuncStart "const x = 5" = false := by
  decide

/-- A one-element optional chain is one optional group. -/
theorem optChain_one (a : String) (k : List Char → Bool) (cs : List Char) :
    optChain [a] k cs = optGap a k cs := by
  cases hg : kwGap a cs <;> simp [optChain, optGap, hg]

/-- A two-element optional chain is two nested optional groups. -/
theorem optChain_two (a b : String) (k : List Char → Bool) (cs : List Char) :
    optChain [a, b] k cs = optGap a (optGap b k) cs := by
  cases hg : kwGap a cs <;> simp [optChain, optGap, hg, optChain_one]

/-- A three-element optional chain is three nested optional groups. -/
theorem optChain_three (a b c : String) (k : List Char → Bool) (cs : List Char) :
    optChain [a, b, c] k cs = optGap a (optGap b (optGap c k)) cs := by
  cases hg : kwGap a cs <;> simp [optChain, optGap, hg, optChain_two]

/-- The body of `specFuncStart` agrees with the regex alternation on every
stripped line. -/
theorem funcStartFrom_eq_spec (cs : List Char) :
    funcStartFrom cs =
      ((["def ", "function ", "async function ", "func "].any fun kw =>
          kw.data.isPrefixOf cs)
        || optChain ["export", "async", "function"]
            (fun r =>
              ["const", "let", "var"].any fun kw =>
                match kwGap kw r with
                | some r2 => eqAfterName r2
                | none => false)
            cs
        || (["public", "private", "protected"].any fun kw =>
            match kwGap kw cs with
            | some r => optChain ["static", "async"] nameParen r
            | none => false)) := by
  have hpt : ∀ r : List Char,
      (["const", "let", "var"].any fun kw =>
        match kwGap kw r with
        | some r2 => eqAfterName r2
        | none => false) = arrowBinding r := by
    intro r
    simp only [List.any_cons, List.any_nil, Bool.or_false, arrowBinding,
      Bool.or_assoc]
  have harrow :
      optChain ["export", "async", "function"]
        (fun r =>
          ["const", "let", "var"].any fun kw =>
            match kwGap kw r with
            | some r2 => eqAfterName r2
            | none => false)
        cs = declAlt cs := by
    rw [optChain_congr _ _ arrowBinding hpt cs, optChain_three]
    rfl
  have hmethod :
      (["public", "private", "protected"].any fun kw =>
          match kwGap kw cs with
          | some r => optChain ["static", "async"] nameParen r
          | none => false)
      = methodSig cs := by
    cases h1 : kwGap "public" cs <;> cases h2 : kwGap "private" cs <;>
      cases h3 : kwGap "protected" cs <;>
      simp [methodSig, h1, h2, h3, optChain_two, Bool.or_assoc]
  rw [harrow, hmethod]
  unfold funcStartFrom
  simp only [List.any_cons, List.any_nil, Bool.or_false, ← startsLit_eq]
  cases startsLit "def " cs <;> cases startsLit "function " cs <;>
    cases startsLit "async function " cs <;> cases startsLit "func " cs <;>
    cases declAlt cs <;> cases methodSig cs <;> rfl

/-- C2 (amended): a line is a candidate function start iff it matches the
family: leading keyword `def `/`function `/`async function ` (the latter with
its following space) or `func `; an arrow/lambda-style binding
`const|let|var NAME =` optionally preceded by `export`/`async`/`function`
keywords, the trailing `(async)? (` of the idiom being optional; or a
visibility-qualified method signature
`public|private|protected (static)? (async)? NAME(`. -/
theorem claim_C2 :
    ∀ line : String, isFuncStart line = specFuncStart line := by
  intro line
  exact funcStartFrom_eq_spec (line.data.dropWhile isPySpace)

end CodeQuality
